import Mathlib

/-!
Verification of the stack-tree submission engine of the `st` CLI.

The definitions below are a shallow embedding of the Rust sources
`src/subcommands/remote/submit.rs`, `src/subcommands/local/set.rs` and
`src/cli.rs`.  The branch-tree store and context helpers
(`tree.rs` / `ctx.rs`) are not part of the provided sources; those
definitions are modelled from the design document and are marked
`Modelled from the spec:` in their doc comments.  External collaborators
(GitHub API, git, interactive prompts) are modelled as oracles in an
environment record, and every observable side effect is recorded in a
trace of `Call` values.
-/

/-- Publication state of a branch, as forced by the uses in `submit.rs`:
`remote_meta.pr_number` is a PR number, `remote_name` is matched as a
nested `Option` in `determine_target_pr_remote`, and `comment_id` is an
optional comment identifier. -/
structure RemoteMetadata where
  pr_number : Nat
  remote_name : Option String
  comment_id : Option Nat
deriving DecidableEq

/-- Modelled from the spec: `RemoteMetadata::new` (in the missing `tree.rs`)
builds fresh publication state; the spec states that `comment_id` is absent
until the first comment is created, and the call sites in `submit.rs` pass
exactly a PR number and an optional remote name. -/
def RemoteMetadata.new (pr_number : Nat) (remote_name : Option String) : RemoteMetadata :=
  { pr_number := pr_number, remote_name := remote_name, comment_id := none }

/-- Modelled from the spec: one node of the branch tree (`tree.rs` is not in
the provided sources).  The node name is the key of the enclosing map. -/
structure TrackedBranch where
  parent : Option String
  children : List String
  remote : Option RemoteMetadata
deriving DecidableEq

/-- Association-list lookup used for the branch map. -/
def lookupBr : List (String × TrackedBranch) → String → Option TrackedBranch
  | [], _ => none
  | p :: rest, n => if p.1 = n then some p.2 else lookupBr rest n

/-- Modelled from the spec: the full branch tree store. -/
structure StackTree where
  branches : List (String × TrackedBranch)
  trunk_name : String
  remote_name : String
deriving DecidableEq

/-- Map lookup, mirroring `ctx.tree.get` / `ctx.tree.branches.get`. -/
def StackTree.get (t : StackTree) (name : String) : Option TrackedBranch :=
  lookupBr t.branches name

/-- In-place update of one node, mirroring mutation through
`ctx.tree.get_mut`. -/
def StackTree.setBranch (t : StackTree) (name : String) (b : TrackedBranch) : StackTree :=
  { t with branches := t.branches.map (fun p => if p.1 = name then (name, b) else p) }

/-- Error kinds, after the design document and the variants visible in
`submit.rs`; the two cleanliness failures are modelled kinds since the
spec does not name them. -/
inductive StError where
  | NotAGitRepository
  | BranchUnavailable
  | BranchNotTracked (name : String)
  | RemoteApiFailure
  | PromptCancelled
  | ConfigInvalid
  | WorkingTreeDirty
  | NeedsRestack
deriving DecidableEq

/-- The fields of a remote pull request read by `submit_stack`. -/
structure RemotePR where
  base_ref : String
  head_sha : String
deriving DecidableEq

/-- State of a pull request as reported during closed-PR reconciliation. -/
inductive PrState where
  | openPr
  | closedPr
  | mergedPr
deriving DecidableEq

/-- Observable side effects of the workflow, in emission order. -/
inductive Call where
  | queryPRState (pr_number : Nat)
  | getPR (pr_number : Nat)
  | updateBase (pr_number : Nat) (base : String)
  | push (branch : String) (remote : String) (force : Bool)
  | createPR (title : String) (head : String) (base : String) (body : String) (draft : Bool)
  | updateAssignees (pr_number : Nat) (assignee : String)
  | createComment (pr_number : Nat) (body : String)
  | updateComment (comment_id : Nat) (body : String)
deriving DecidableEq

/-- Whether a call is a plain branch push. -/
def Call.isPushCall : Call → Bool
  | .push _ _ _ => true
  | _ => false

/-- Whether a call creates a pull request. -/
def Call.isCreateCall : Call → Bool
  | .createPR _ _ _ _ _ => true
  | _ => false

/-- Whether a call updates the base of a pull request. -/
def Call.isUpdateBaseCall : Call → Bool
  | .updateBase _ _ => true
  | _ => false

/-- Whether a call creates or updates a navigation comment. -/
def Call.isCommentCall : Call → Bool
  | .createComment _ _ => true
  | .updateComment _ _ => true
  | _ => false

/-- Oracles for the external collaborators (git repository, GitHub API,
interactive prompts); successful responses are total functions, reads that
can miss return `Option`. -/
structure Env where
  current_branch : String
  working_tree_dirty : Bool
  based_on_parent_tip : String → Bool
  pr_state : Nat → Option PrState
  prs : Nat → Option RemotePR
  localTip : String → Option String
  owner_of : String → String
  new_pr_numbers : Nat → Nat
  new_comment_ids : Nat → Nat
  prompt_title : String → String → String
  prompt_body : String
  prompt_draft : Bool
  prompt_assignee : String
  default_assignee : Option String

/-- Modelled from the spec: one step of the stack walk of `discover_stack`,
collecting names from the current branch up to the trunk and failing with
`BranchNotTracked` when a name is absent; fuel bounds the walk, which by
the no-cycle invariant of the store always suffices. -/
def walk_parents (t : StackTree) : Nat → String → Except StError (List String)
  | 0, b => .error (StError.BranchNotTracked b)
  | fuel + 1, b =>
    match t.get b with
    | none => .error (StError.BranchNotTracked b)
    | some tb =>
      match tb.parent with
      | none => .ok [b]
      | some p => (walk_parents t fuel p).map (fun rest => b :: rest)

/-- Modelled from the spec: `discover_stack` walks parent links from the
current branch to the trunk and reverses the result, so index 0 is the
trunk and the current branch is last. -/
def discover_stack (t : StackTree) (current : String) : Except StError (List String) :=
  (walk_parents t (t.branches.length + 1) current).map List.reverse

/-- Modelled from the spec: `check_cleanliness` fails when the working tree
has uncommitted modifications, or when some non-trunk branch of the stack
is not based on the tip of its parent. -/
def check_cleanliness (env : Env) (stack : List String) : Except StError Unit :=
  if env.working_tree_dirty then .error StError.WorkingTreeDirty
  else if (stack.drop 1).any (fun b => !env.based_on_parent_tip b) then
    .error StError.NeedsRestack
  else .ok ()

/-- The closure passed to `find_map` in `determine_target_pr_remote`:
the recorded remote name of the first child that has remote metadata. -/
def first_child_pr_remote (t : StackTree) (branch : String) : Option (Option String) :=
  (t.get branch).bind fun tracked_branch =>
    tracked_branch.children.findSome? fun child =>
      ((t.get child).bind (fun b => b.remote)).map (fun r => r.remote_name)

/-- Translation of `SubmitCmd::determine_target_pr_remote` from
`submit.rs`: if the first child holding remote metadata records a present
remote name, use it; otherwise fall back to the default remote of the
tree. -/
def determine_target_pr_remote (t : StackTree) (branch : String) : Except StError String :=
  match first_child_pr_remote t branch with
  | some (some remote_name) => .ok remote_name
  | _ => .ok t.remote_name

/-- A concrete tree exercising `determine_target_pr_remote`: branch `dev`
has two published children, the first with an absent remote name and the
second recording the fork `fork`. -/
def c1Tree : StackTree :=
  { branches :=
      [ ("main", { parent := none, children := ["dev"], remote := none }),
        ("dev", { parent := some "main", children := ["c1", "c2"], remote := none }),
        ("c1", { parent := some "dev", children := [],
                 remote := some { pr_number := 7, remote_name := none, comment_id := none } }),
        ("c2", { parent := some "dev", children := [],
                 remote := some { pr_number := 8, remote_name := some "fork", comment_id := none } }) ],
    trunk_name := "main",
    remote_name := "origin" }

/-- Threaded state of `submit_stack`: the branch tree, the trace of
side effects so far, and a counter indexing freshly assigned PR numbers. -/
structure SubmitState where
  tree : StackTree
  calls : List Call
  prCtr : Nat
deriving DecidableEq

/-- Translation of one iteration of the loop of `SubmitCmd::submit_stack`
(`submit.rs`): on an already-submitted branch fetch the remote pull
request, update its base when stale, then either skip (remote head equals
the local tip) or push; on an unsubmitted branch push, create the pull
request, apply the assignee, and store fresh remote metadata.  The push
always targets the default remote of the tree (`remote_name` in the
source), while the resolved target remote only shapes the PR base and the
stored metadata. -/
def submit_branch (force : Bool) (env : Env) (assignee : String) (parent branch : String)
    (st : SubmitState) : Except StError Unit × SubmitState :=
  let remote_name := st.tree.remote_name
  match determine_target_pr_remote st.tree branch with
  | .error e => (.error e, st)
  | .ok target_remote_name =>
    let target_owner := env.owner_of target_remote_name
    let base_parent :=
      if target_remote_name = "" then parent else target_owner ++ ":" ++ parent
    match st.tree.get branch with
    | none => (.error (StError.BranchNotTracked branch), st)
    | some tracked_branch =>
      match tracked_branch.remote with
      | some remote_meta =>
        let st := { st with calls := st.calls ++ [Call.getPR remote_meta.pr_number] }
        match env.prs remote_meta.pr_number with
        | none => (.error StError.RemoteApiFailure, st)
        | some remote_pr =>
          let st :=
            if remote_pr.base_ref ≠ parent then
              { st with calls := st.calls ++ [Call.updateBase remote_meta.pr_number base_parent] }
            else st
          match env.localTip branch with
          | none => (.error StError.BranchUnavailable, st)
          | some tip =>
            if remote_pr.head_sha = tip then (.ok (), st)
            else (.ok (), { st with calls := st.calls ++ [Call.push branch remote_name force] })
      | none =>
        let st := { st with calls := st.calls ++ [Call.push branch remote_name force] }
        let title := env.prompt_title branch parent
        let pr_number := env.new_pr_numbers st.prCtr
        let st := { st with calls := st.calls ++
          [Call.createPR title branch base_parent env.prompt_body env.prompt_draft] }
        let st := { st with calls := st.calls ++ [Call.updateAssignees pr_number assignee] }
        (.ok (),
          { tree := st.tree.setBranch branch
              { tracked_branch with
                remote := some (RemoteMetadata.new pr_number (some target_remote_name)) },
            calls := st.calls,
            prCtr := st.prCtr + 1 })

/-- The submission loop over consecutive `(parent, branch)` pairs of the
stack, stopping at the first failure and keeping the state reached so
far. -/
def submit_loop (force : Bool) (env : Env) (assignee : String) :
    List (String × String) → SubmitState → Except StError Unit × SubmitState
  | [], st => (.ok (), st)
  | pb :: rest, st =>
    match submit_branch force env assignee pb.1 pb.2 st with
    | (.ok _, st₁) => submit_loop force env assignee rest st₁
    | (.error e, st₁) => (.error e, st₁)

/-- Mirrors `SubmitCmd::prompt_for_assignee`: after it runs, the
configured default assignee is always present, falling back to the
prompted value. -/
def effective_assignee (env : Env) : String :=
  match env.default_assignee with
  | some a => a
  | none => env.prompt_assignee

/-- Translation of `SubmitCmd::submit_stack` (`submit.rs`): rediscover the
stack, settle the assignee, then process each non-trunk branch with its
parent in stack order. -/
def submit_stack (force : Bool) (env : Env) (tree : StackTree) :
    Except StError Unit × SubmitState :=
  match discover_stack tree env.current_branch with
  | .error e => (.error e, { tree := tree, calls := [], prCtr := 0 })
  | .ok stack =>
    submit_loop force env (effective_assignee env) (stack.zip (stack.drop 1))
      { tree := tree, calls := [], prCtr := 0 }

deriving instance DecidableEq for Except

/-- The skip condition of `submit_stack` for one branch: remote metadata is
present, the remote pull request is found, its base equals the local
parent and its head equals the local tip. -/
def branch_synced (env : Env) (t : StackTree) (p b : String) : Bool :=
  match (t.get b).bind (fun tb => tb.remote) with
  | none => false
  | some m =>
    match env.prs m.pr_number, env.localTip b with
    | some pr, some tip => pr.base_ref = p && pr.head_sha = tip
    | _, _ => false

/-- A baseline environment for concrete runs. -/
def baseEnv : Env :=
  { current_branch := "a",
    working_tree_dirty := false,
    based_on_parent_tip := fun _ => true,
    pr_state := fun _ => some PrState.openPr,
    prs := fun _ => none,
    localTip := fun _ => some "sha1",
    owner_of := fun _ => "me",
    new_pr_numbers := fun k => 100 + k,
    new_comment_ids := fun k => 500 + k,
    prompt_title := fun _ _ => "t",
    prompt_body := "b",
    prompt_draft := true,
    prompt_assignee := "u",
    default_assignee := some "u" }

/-- A stack `main -> a` where `a` is published and fully in sync with the
remote pull request number 1. -/
def c2Tree : StackTree :=
  { branches :=
      [ ("main", { parent := none, children := ["a"], remote := none }),
        ("a", { parent := some "main", children := [],
                remote := some { pr_number := 1, remote_name := some "", comment_id := none } }) ],
    trunk_name := "main",
    remote_name := "origin" }

/-- Environment in which pull request 1 has base `main` and head equal to
the local tip of `a`. -/
def c2Env : Env :=
  { baseEnv with
    prs := fun n => if n = 1 then some { base_ref := "main", head_sha := "sha1" } else none }

/-- A stack `main -> a` where `a` is unsubmitted and has an off-stack
published child `b` recording the fork remote `fork`. -/
def c3Tree : StackTree :=
  { branches :=
      [ ("main", { parent := none, children := ["a"], remote := none }),
        ("a", { parent := some "main", children := ["b"], remote := none }),
        ("b", { parent := some "a", children := [],
                remote := some { pr_number := 9, remote_name := some "fork", comment_id := none } }) ],
    trunk_name := "main",
    remote_name := "origin" }

/-- A stack `main -> a` where `a` is unsubmitted and has no children, so
the resolved target remote is the default remote itself. -/
def c3bTree : StackTree :=
  { branches :=
      [ ("main", { parent := none, children := ["a"], remote := none }),
        ("a", { parent := some "main", children := [], remote := none }) ],
    trunk_name := "main",
    remote_name := "origin" }

/-- A stack `main -> a` where the pull request of `a` records the stale
base `old-main` while the local parent is `main`. -/
def c4Tree : StackTree :=
  { branches :=
      [ ("main", { parent := none, children := ["a"], remote := none }),
        ("a", { parent := some "main", children := [],
                remote := some { pr_number := 2, remote_name := some "", comment_id := none } }) ],
    trunk_name := "main",
    remote_name := "origin" }

/-- Environment in which pull request 2 has the stale base `old-main`. -/
def c4Env : Env :=
  { baseEnv with
    prs := fun n => if n = 2 then some { base_ref := "old-main", head_sha := "sha1" } else none }

/-- The fixed heading of the navigation comment. -/
def comment_header : String :=
  "## 📚 $\\text\x7bStack Overview\x7d$\n\nPulls submitted in this stack:\n"

/-- The fixed footer of the navigation comment. -/
def comment_footer : String :=
  "\n_This comment was automatically generated by [`st`](https://github.com/clabby/st)._"

/-- One rendered stack line, after the `format` call in
`render_pr_comment`: the PR number, with the marker on the branch the
comment is rendered for. -/
def pr_comment_line (current branch : String) (pr_number : Nat) : String :=
  "* #" ++ toString pr_number ++ (if branch = current then " 👈" else "") ++ "\n"

/-- The loop of `SubmitCmd::render_pr_comment` over the (already reversed)
non-trunk part of the stack: one line per published branch, failing on an
untracked name. -/
def render_stack_lines (t : StackTree) (current : String) :
    List String → Except StError String
  | [] => .ok ""
  | b :: rest =>
    match t.get b with
    | none => .error (StError.BranchNotTracked b)
    | some tb =>
      (render_stack_lines t current rest).map (fun s =>
        (match tb.remote with
         | some r => pr_comment_line current b r.pr_number
         | none => "") ++ s)

/-- Translation of `SubmitCmd::render_pr_comment` (`submit.rs`): header,
one line per published branch from the leaf end of the stack down to the
first non-trunk branch, a line naming the trunk, and the footer. -/
def render_pr_comment (t : StackTree) (current_branch : String) (stack : List String) :
    Except StError String :=
  (render_stack_lines t current_branch ((stack.drop 1).reverse)).map
    (fun body => comment_header ++ body ++ "* `" ++ t.trunk_name ++ "`\n" ++ comment_footer)

/-- Spec-side description for C7: the `(branch, pr_number)` pairs of the
published branches of the stack, from the leaf end down to but not
including the trunk. -/
def published_entries_of (t : StackTree) : List String → List (String × Nat)
  | [] => []
  | b :: rest =>
    match ((t.get b).bind (fun tb => tb.remote)).map (fun r => (b, r.pr_number)) with
    | none => published_entries_of t rest
    | some e => e :: published_entries_of t rest

/-- Spec-side description for C7: published entries of a stack, leaf end
first. -/
def published_entries (t : StackTree) (stack : List String) : List (String × Nat) :=
  published_entries_of t ((stack.drop 1).reverse)

/-- Spec-side description for C7: the list body rendered from entries, one
line per entry, the marker placed exactly on the lines whose branch is the
one rendered for. -/
def lines_of_entries (current : String) : List (String × Nat) → String
  | [] => ""
  | e :: rest =>
    "* #" ++ toString e.2 ++ (if e.1 = current then " 👈" else "") ++ "\n" ++
      lines_of_entries current rest

/-- Witness tree for C7: stack `main -> a -> b` with `a` and `b`
published. -/
def c7Tree : StackTree :=
  { branches :=
      [ ("main", { parent := none, children := ["a"], remote := none }),
        ("a", { parent := some "main", children := ["b"],
                remote := some { pr_number := 3, remote_name := some "", comment_id := none } }),
        ("b", { parent := some "a", children := [],
                remote := some { pr_number := 4, remote_name := some "", comment_id := none } }) ],
    trunk_name := "main",
    remote_name := "origin" }

/-- Threaded state of `update_pr_comments`: the tree, the trace, and a
counter indexing freshly created comment identifiers. -/
structure CommentState where
  tree : StackTree
  calls : List Call
  cmtCtr : Nat
deriving DecidableEq

/-- Translation of one iteration of the loop of
`SubmitCmd::update_pr_comments` (`submit.rs`): an untracked branch aborts,
a branch without remote metadata is skipped, otherwise the comment body is
rendered from the current tree and either the existing comment is updated
or a new comment is created and its identifier persisted into the tree. -/
def update_branch_comment (env : Env) (stack : List String) (branch : String)
    (st : CommentState) : Except StError Unit × CommentState :=
  match st.tree.get branch with
  | none => (.error (StError.BranchNotTracked branch), st)
  | some tracked_branch =>
    match tracked_branch.remote with
    | none => (.ok (), st)
    | some remote_meta =>
      match render_pr_comment st.tree branch stack with
      | .error e => (.error e, st)
      | .ok rendered =>
        match remote_meta.comment_id with
        | some id => (.ok (),
            { st with calls := st.calls ++ [Call.updateComment id rendered] })
        | none =>
          let cid := env.new_comment_ids st.cmtCtr
          (.ok (),
            { tree := st.tree.setBranch branch
                { tracked_branch with
                  remote := some { remote_meta with comment_id := some cid } },
              calls := st.calls ++ [Call.createComment remote_meta.pr_number rendered],
              cmtCtr := st.cmtCtr + 1 })

/-- The comment-synchronization loop over the non-trunk branches of the
stack. -/
def comment_loop (env : Env) (stack : List String) :
    List String → CommentState → Except StError Unit × CommentState
  | [], st => (.ok (), st)
  | b :: rest, st =>
    match update_branch_comment env stack b st with
    | (.ok _, st₁) => comment_loop env stack rest st₁
    | (.error e, st₁) => (.error e, st₁)

/-- Translation of `SubmitCmd::update_pr_comments` (`submit.rs`): the
second pass over the stack, skipping the trunk. -/
def update_pr_comments (env : Env) (tree : StackTree) (stack : List String) :
    Except StError Unit × CommentState :=
  comment_loop env stack (stack.drop 1) { tree := tree, calls := [], cmtCtr := 0 }

/-- Witness tree for C8: `a` already has a navigation comment 42, `b` is
published without one. -/
def c8Tree : StackTree :=
  { branches :=
      [ ("main", { parent := none, children := ["a"], remote := none }),
        ("a", { parent := some "main", children := ["b"],
                remote := some { pr_number := 3, remote_name := some "", comment_id := some 42 } }),
        ("b", { parent := some "a", children := [],
                remote := some { pr_number := 4, remote_name := some "", comment_id := none } }) ],
    trunk_name := "main",
    remote_name := "origin" }

/-- Modelled from the spec: removal of one node by the closed-PR
reconciler; the children of the removed node are re-linked to its former
parent, added to the children of that parent in place of the removed
entry, and the node is dropped from the map. -/
def remove_branch (t : StackTree) (name : String) : StackTree :=
  match t.get name with
  | none => t
  | some node =>
    { t with branches :=
        (t.branches.filter (fun p => p.1 ≠ name)).map (fun p =>
          (p.1,
            { p.2 with
              parent := if node.children.contains p.1 then node.parent else p.2.parent,
              children :=
                if some p.1 = node.parent then
                  p.2.children.filter (fun c => c ≠ name) ++ node.children
                else p.2.children })) }

/-- Modelled from the spec: the loop of `delete_closed_branches` over the
non-trunk branch names; each branch with remote metadata is queried on the
remote, and a pull request reported closed (but not merged) has its node
removed; the count of deletions is returned. -/
def delete_closed_loop (env : Env) :
    List String → StackTree → List Call → Nat → (Except StError Nat) × StackTree × List Call
  | [], t, cs, n => (.ok n, t, cs)
  | b :: rest, t, cs, n =>
    match (t.get b).bind (fun tb => tb.remote) with
    | none => delete_closed_loop env rest t cs n
    | some m =>
      match env.pr_state m.pr_number with
      | none => (.error StError.RemoteApiFailure, t, cs ++ [Call.queryPRState m.pr_number])
      | some PrState.closedPr =>
        delete_closed_loop env rest (remove_branch t b)
          (cs ++ [Call.queryPRState m.pr_number]) (n + 1)
      | some _ => delete_closed_loop env rest t (cs ++ [Call.queryPRState m.pr_number]) n

/-- Modelled from the spec: `delete_closed_branches` over the given branch
names. -/
def delete_closed_branches (env : Env) (branch_names : List String) (t : StackTree) :
    (Except StError Nat) × StackTree × List Call :=
  delete_closed_loop env branch_names t [] 0

/-- Translation of `SubmitCmd::pre_flight` (`submit.rs`): the cleanliness
gate runs first and aborts everything on failure; only then are closed
pull requests reconciled over the non-trunk stack branches. -/
def pre_flight (env : Env) (tree : StackTree) (stack : List String) :
    (Except StError Unit) × StackTree × List Call :=
  match check_cleanliness env stack with
  | .error e => (.error e, tree, [])
  | .ok _ =>
    match delete_closed_branches env (stack.drop 1) tree with
    | (.error e, t, cs) => (.error e, t, cs)
    | (.ok _, t, cs) => (.ok (), t, cs)

/-- Translation of `SubmitCmd::run` (`submit.rs`): discover the stack, run
the pre-flight gate, submit the whole stack, then synchronize the
navigation comments of the originally discovered stack; the tree reached
so far and the accumulated trace are reported alongside the result. -/
def SubmitCmd.run (force : Bool) (env : Env) (tree : StackTree) :
    (Except StError Unit) × StackTree × List Call :=
  match discover_stack tree env.current_branch with
  | .error e => (.error e, tree, [])
  | .ok stack =>
    match pre_flight env tree stack with
    | (.error e, t₁, cs₁) => (.error e, t₁, cs₁)
    | (.ok _, t₁, cs₁) =>
      match submit_stack force env t₁ with
      | (.error e, st) => (.error e, st.tree, cs₁ ++ st.calls)
      | (.ok _, st) =>
        match update_pr_comments env st.tree stack with
        | (.error e, cst) => (.error e, cst.tree, cs₁ ++ st.calls ++ cst.calls)
        | (.ok _, cst) => (.ok (), cst.tree, cs₁ ++ st.calls ++ cst.calls)

/-- Environment with a dirty working tree. -/
def dirtyEnv : Env := { c2Env with working_tree_dirty := true }

/-- The `set` subcommand variants, after `set.rs`. -/
inductive SetCommands where
  | Remote (name : Option String)
  | Assignee (username : String)
deriving DecidableEq

/-- The global configuration fields touched by the embedded commands. -/
structure StConfig where
  default_assignee : Option String
deriving DecidableEq

/-- Modelled from the spec: `reset_tracked_branches` (in the missing
`ctx.rs`) is exposed only as a tree mutation entry point accompanying
remote renaming; it is modelled as clearing the remote publication state
of every tracked branch, leaving names, links and the default remote
untouched. -/
def reset_tracked_branches (t : StackTree) : StackTree :=
  { t with branches := t.branches.map (fun p => (p.1, { p.2 with remote := none })) }

/-- Translation of `SetCmd::run` (`set.rs`): setting the remote to the
name the tree already holds returns immediately; any other name (or a
prompted one when no name is given) is stored and the tracked branches are
reset; setting the assignee only updates the configuration.  The last
component records whether `reset_tracked_branches` ran. -/
def SetCmd.run (prompted_remote : String) (cmd : SetCommands) (tree : StackTree)
    (cfg : StConfig) : (Except StError Unit) × StackTree × StConfig × Bool :=
  match cmd with
  | .Remote name =>
    match name with
    | some n =>
      if n = tree.remote_name then (.ok (), tree, cfg, false)
      else (.ok (), reset_tracked_branches { tree with remote_name := n }, cfg, true)
    | none =>
      (.ok (), reset_tracked_branches { tree with remote_name := prompted_remote }, cfg, true)
  | .Assignee u => (.ok (), tree, { cfg with default_assignee := some u }, false)

/-- C1 counterexample: in `c1Tree` both children of `dev` carry remote
metadata, no child records the default `origin` as its remote name, yet
`determine_target_pr_remote` returns the default remote of the tree,
because the first published child has an absent remote name. -/
theorem determine_target_pr_remote_returns_default_despite_published_child :
    (∃ tb, c1Tree.get "dev" = some tb ∧
      tb.children.any (fun c => ((c1Tree.get c).bind (fun b => b.remote)).isSome) = true ∧
      tb.children.all (fun c =>
        ((c1Tree.get c).bind (fun b => b.remote)).map (fun r => r.remote_name) ≠
          some (some c1Tree.remote_name)) = true) ∧
    determine_target_pr_remote c1Tree "dev" = .ok c1Tree.remote_name := by
  exact ⟨⟨{ parent := some "main", children := ["c1", "c2"], remote := none },
    by decide, by decide, by decide⟩, rfl⟩

/-- C1 (amended): `determine_target_pr_remote` never fails; it returns the
recorded remote name of the first direct child (in stored child order)
that has remote metadata when that recorded name is present, and in every
other case (no tracked entry, no published child, or an absent recorded
name on the first published child) it returns the default remote name of
the tree. -/
theorem determine_target_pr_remote_characterization (t : StackTree) (branch : String) :
    determine_target_pr_remote t branch =
      .ok (match first_child_pr_remote t branch with
           | some (some remote_name) => remote_name
           | _ => t.remote_name) := by
  unfold determine_target_pr_remote
  rcases first_child_pr_remote t branch with _ | (_ | r) <;> rfl

/-- Helper equation: `determine_target_pr_remote` always succeeds, with the
value determined by the first published child. -/
lemma determine_target_pr_remote_eq (t : StackTree) (branch : String) :
    determine_target_pr_remote t branch =
      .ok (match first_child_pr_remote t branch with
           | some (some rn) => rn
           | _ => t.remote_name) := by
  unfold determine_target_pr_remote
  rcases first_child_pr_remote t branch with _ | (_ | r) <;> rfl

/-- A synced branch takes the skip path: the only emitted call is the
pull-request read, and the tree and PR counter are unchanged. -/
lemma submit_branch_synced (force : Bool) (env : Env) (assignee : String)
    (p b : String) (st : SubmitState) (h : branch_synced env st.tree p b = true) :
    ∃ n, submit_branch force env assignee p b st =
      (.ok (), { st with calls := st.calls ++ [Call.getPR n] }) := by
  unfold branch_synced at h
  rcases hget : st.tree.get b with _ | tb
  · rw [hget] at h; simp [Option.bind] at h
  rw [hget] at h
  simp only [Option.bind] at h
  rcases hrem : tb.remote with _ | m
  · rw [hrem] at h; simp at h
  rw [hrem] at h
  replace h : (match env.prs m.pr_number, env.localTip b with
      | some pr, some tip => decide (pr.base_ref = p) && decide (pr.head_sha = tip)
      | _, _ => false) = true := h
  rcases hpr : env.prs m.pr_number with _ | pr
  · rw [hpr] at h; simp at h
  rcases htip : env.localTip b with _ | tip
  · rw [hpr, htip] at h; simp at h
  rw [hpr, htip] at h
  simp only [Bool.and_eq_true, decide_eq_true_eq] at h
  refine ⟨m.pr_number, ?_⟩
  unfold submit_branch
  rw [determine_target_pr_remote_eq]
  simp only [hget, hrem, hpr, htip, h.1, h.2]
  simp

/-- Over a run of synced branches the submission loop succeeds, leaves the
tree and counter unchanged, and emits no push and no PR creation. -/
lemma submit_loop_synced (force : Bool) (env : Env) (assignee : String) :
    ∀ (pairs : List (String × String)) (st : SubmitState),
    (∀ pb ∈ pairs, branch_synced env st.tree pb.1 pb.2 = true) →
    (submit_loop force env assignee pairs st).1 = .ok () ∧
    (submit_loop force env assignee pairs st).2.tree = st.tree ∧
    ∃ extra, (submit_loop force env assignee pairs st).2.calls = st.calls ++ extra ∧
      ∀ c ∈ extra, c.isPushCall = false ∧ c.isCreateCall = false
  | [], st, _ => by
    refine ⟨rfl, rfl, [], by simp [submit_loop], by simp⟩
  | pb :: rest, st, h => by
    obtain ⟨n, hstep⟩ :=
      submit_branch_synced force env assignee pb.1 pb.2 st (h pb (by simp))
    have hrest := submit_loop_synced force env assignee rest
      { st with calls := st.calls ++ [Call.getPR n] }
      (fun q hq => h q (by simp [hq]))
    simp only [submit_loop, hstep]
    obtain ⟨h1, h2, extra, h3, h4⟩ := hrest
    refine ⟨h1, by simpa using h2, Call.getPR n :: extra, ?_, ?_⟩
    · simpa [List.append_assoc] using h3
    · intro c hc
      rcases List.mem_cons.mp hc with hc | hc
      · subst hc; exact ⟨rfl, rfl⟩
      · exact h4 c hc

/-- C2: if every non-trunk branch of the discovered stack has remote
metadata whose pull request records the local parent as base and the local
tip as head, then submission succeeds, leaves the tree unchanged, and the
trace contains zero push calls and zero pull-request create calls. -/
theorem submit_stack_synced_no_push_no_create (force : Bool) (env : Env)
    (tree : StackTree) (stack : List String)
    (hdisc : discover_stack tree env.current_branch = .ok stack)
    (hsync : ∀ pb ∈ stack.zip (stack.drop 1), branch_synced env tree pb.1 pb.2 = true) :
    (submit_stack force env tree).1 = .ok () ∧
    (submit_stack force env tree).2.tree = tree ∧
    ∀ c ∈ (submit_stack force env tree).2.calls,
      c.isPushCall = false ∧ c.isCreateCall = false := by
  unfold submit_stack
  rw [hdisc]
  have h := submit_loop_synced force env (effective_assignee env)
    (stack.zip (stack.drop 1)) { tree := tree, calls := [], prCtr := 0 } hsync
  obtain ⟨h1, h2, extra, h3, h4⟩ := h
  refine ⟨h1, h2, ?_⟩
  intro c hc
  rw [h3] at hc
  exact h4 c (by simpa using hc)

/-- Witness for C2 at the concrete synced stack `main -> a`. -/
theorem submit_stack_synced_no_push_no_create_witness :
    discover_stack c2Tree c2Env.current_branch = .ok ["main", "a"] ∧
    (∀ pb ∈ (["main", "a"].zip (["main", "a"].drop 1)),
      branch_synced c2Env c2Tree pb.1 pb.2 = true) ∧
    (submit_stack false c2Env c2Tree).1 = .ok () ∧
    ∀ c ∈ (submit_stack false c2Env c2Tree).2.calls,
      c.isPushCall = false ∧ c.isCreateCall = false := by
  have hd : discover_stack c2Tree c2Env.current_branch = .ok ["main", "a"] := by decide
  have hs : ∀ pb ∈ (["main", "a"].zip (["main", "a"].drop 1)),
      branch_synced c2Env c2Tree pb.1 pb.2 = true := by decide
  have h := submit_stack_synced_no_push_no_create false c2Env c2Tree ["main", "a"] hd hs
  exact ⟨hd, hs, h.1, h.2.2⟩

/-- C3 counterexample.  First input: the resolved target remote of `a` is
`fork`, yet the only push in the trace targets the default remote
`origin`, so the branch is not pushed to the resolved target remote.
Second input: the resolved target remote equals the default remote
`origin`, yet the created pull request has the owner-qualified base
`me:main` instead of the bare parent name, so qualification is not
conditioned on the target remote differing from the default. -/
theorem submit_unsubmitted_push_target_counterexample :
    (determine_target_pr_remote c3Tree "a" = .ok "fork" ∧
     c3Tree.remote_name = "origin" ∧
     ((submit_stack false baseEnv c3Tree).2.calls.filter (fun c => c.isPushCall)) =
       [Call.push "a" "origin" false]) ∧
    (determine_target_pr_remote c3bTree "a" = .ok c3bTree.remote_name ∧
     c3bTree.remote_name ≠ "" ∧
     ((submit_stack false baseEnv c3bTree).2.calls.filter (fun c => c.isCreateCall)) =
       [Call.createPR "t" "a" "me:main" "b" true]) := by
  exact ⟨⟨by decide, by decide, by decide⟩, ⟨by decide, by decide, by decide⟩⟩

/-- C3 (amended): an unsubmitted branch is pushed to the default remote of
the tree (forced only when the force flag is set), a pull request is
created for it whose base is the parent name, owner-qualified exactly when
the resolved target remote name is non-empty, the configured assignee is
applied, and the tree then records the fresh pull-request number, the
resolved remote name, and an absent comment identifier, leaving every
other branch untouched. -/
theorem submit_branch_unsubmitted_behavior (force : Bool) (env : Env) (assignee : String)
    (parent branch : String) (st : SubmitState) (tb : TrackedBranch) (trn : String)
    (hget : st.tree.get branch = some tb) (hrem : tb.remote = none)
    (hdet : determine_target_pr_remote st.tree branch = .ok trn) :
    submit_branch force env assignee parent branch st =
      (.ok (),
        { tree := st.tree.setBranch branch
            { tb with remote := some (RemoteMetadata.new (env.new_pr_numbers st.prCtr) (some trn)) },
          calls := st.calls ++
            [Call.push branch st.tree.remote_name force,
             Call.createPR (env.prompt_title branch parent) branch
               (if trn = "" then parent else env.owner_of trn ++ ":" ++ parent)
               env.prompt_body env.prompt_draft,
             Call.updateAssignees (env.new_pr_numbers st.prCtr) assignee],
          prCtr := st.prCtr + 1 }) ∧
    (RemoteMetadata.new (env.new_pr_numbers st.prCtr) (some trn)).comment_id = none := by
  constructor
  · unfold submit_branch
    rw [hdet, hget]
    simp [hrem]
  · rfl

/-- Witness for the amended C3 at the concrete stack `main -> a` with the
fork-publishing child `b`. -/
theorem submit_branch_unsubmitted_behavior_witness :
    c3Tree.get "a" = some { parent := some "main", children := ["b"], remote := none } ∧
    determine_target_pr_remote c3Tree "a" = .ok "fork" ∧
    submit_branch false baseEnv "u" "main" "a" { tree := c3Tree, calls := [], prCtr := 0 } =
      (.ok (),
        { tree := c3Tree.setBranch "a"
            { parent := some "main", children := ["b"],
              remote := some (RemoteMetadata.new 100 (some "fork")) },
          calls :=
            [Call.push "a" "origin" false,
             Call.createPR "t" "a" "me:main" "b" true,
             Call.updateAssignees 100 "u"],
          prCtr := 1 }) := by
  have h := submit_branch_unsubmitted_behavior false baseEnv "u" "main" "a"
    { tree := c3Tree, calls := [], prCtr := 0 }
    { parent := some "main", children := ["b"], remote := none } "fork"
    (by decide) rfl (by decide)
  exact ⟨by decide, by decide, by simpa using h.1⟩

/-- C4: for a submitted branch whose remote pull request records a base
different from the local parent, the branch step emits the pull-request
read followed immediately by exactly one base-update call, and everything
emitted afterwards (in particular any push) contains no further
base-update, so the single base update precedes the push/skip decision. -/
theorem submit_branch_stale_base_single_update (force : Bool) (env : Env) (assignee : String)
    (parent branch : String) (st : SubmitState) (tb : TrackedBranch) (m : RemoteMetadata)
    (pr : RemotePR) (trn : String) (hget : st.tree.get branch = some tb)
    (hrem : tb.remote = some m) (hpr : env.prs m.pr_number = some pr)
    (hdet : determine_target_pr_remote st.tree branch = .ok trn)
    (hbase : pr.base_ref ≠ parent) :
    ∃ rest,
      (submit_branch force env assignee parent branch st).2.calls =
        st.calls ++ [Call.getPR m.pr_number,
          Call.updateBase m.pr_number
            (if trn = "" then parent else env.owner_of trn ++ ":" ++ parent)] ++ rest ∧
      (∀ c ∈ rest, c.isUpdateBaseCall = false) := by
  unfold submit_branch
  rw [hdet, hget]
  simp only [hrem, hpr]
  rcases htip : env.localTip branch with _ | tip
  · refine ⟨[], by simp [hbase], by simp⟩
  · by_cases hsha : pr.head_sha = tip
    · refine ⟨[], by simp [hbase, hsha], by simp⟩
    · refine ⟨[Call.push branch st.tree.remote_name force], by simp [hbase, hsha], ?_⟩
      intro c hc
      simp at hc
      subst hc
      rfl

/-- Witness for C4 at the concrete stale-base stack `main -> a`. -/
theorem submit_branch_stale_base_single_update_witness :
    ∃ rest,
      (submit_branch false c4Env "u" "main" "a"
          { tree := c4Tree, calls := [], prCtr := 0 }).2.calls =
        [] ++ [Call.getPR 2,
          Call.updateBase 2 (if "origin" = "" then "main" else c4Env.owner_of "origin" ++ ":" ++ "main")] ++ rest ∧
      (∀ c ∈ rest, c.isUpdateBaseCall = false) := by
  exact submit_branch_stale_base_single_update false c4Env "u" "main" "a"
    { tree := c4Tree, calls := [], prCtr := 0 }
    { parent := some "main", children := [],
      remote := some { pr_number := 2, remote_name := some "", comment_id := none } }
    { pr_number := 2, remote_name := some "", comment_id := none }
    { base_ref := "old-main", head_sha := "sha1" } "origin"
    (by decide) rfl (by decide) (by decide) (by decide)

/-- The rendering loop agrees with the spec-side entries rendering when
every listed branch is tracked. -/
lemma render_stack_lines_eq (t : StackTree) (current : String) :
    ∀ l : List String, (∀ b ∈ l, (t.get b).isSome = true) →
    render_stack_lines t current l =
      .ok (lines_of_entries current (published_entries_of t l))
  | [], _ => rfl
  | b :: rest, h => by
    rcases hget : t.get b with _ | tb
    · exact absurd (h b (by simp)) (by simp [hget])
    have ih := render_stack_lines_eq t current rest (fun x hx => h x (by simp [hx]))
    unfold render_stack_lines published_entries_of
    rw [hget, ih]
    rcases hrem : tb.remote with _ | r
    · simp only [hrem, Option.bind, Option.map, Except.map, String.empty_append]
    · simp only [hrem, Option.bind, Option.map, Except.map]
      rfl

/-- Entries produced from a list of branch names take their first
component from that list. -/
lemma published_entries_of_fst (t : StackTree) :
    ∀ l : List String, ∀ e ∈ published_entries_of t l, e.1 ∈ l
  | [], e, he => by simp [published_entries_of] at he
  | b :: rest, e, he => by
    unfold published_entries_of at he
    rcases hx : ((t.get b).bind (fun tb => tb.remote)).map (fun r => (b, r.pr_number)) with _ | x
    · rw [hx] at he
      exact List.mem_cons_of_mem b (published_entries_of_fst t rest e he)
    · rw [hx] at he
      rcases List.mem_cons.mp he with he | he
      · subst he
        rcases hy : (t.get b).bind (fun tb => tb.remote) with _ | y
        · rw [hy] at hx; simp at hx
        · rw [hy] at hx
          simp only [Option.map] at hx
          cases hx
          simp
      · exact List.mem_cons_of_mem b (published_entries_of_fst t rest e he)

/-- A branch absent from the list contributes no entry. -/
lemma published_entries_of_filter_not_mem (t : StackTree) (current : String) :
    ∀ l : List String, current ∉ l →
    (published_entries_of t l).filter (fun e => e.1 = current) = [] := by
  intro l hcur
  rw [List.filter_eq_nil_iff]
  intro e he
  simp only [decide_eq_true_eq]
  intro hfst
  exact hcur (hfst ▸ published_entries_of_fst t l e he)

/-- In a duplicate-free branch list containing the published branch
`current`, exactly one entry carries `current`. -/
lemma published_entries_of_count (t : StackTree) (current : String) :
    ∀ l : List String, l.Nodup → current ∈ l →
    ((t.get current).bind (fun tb => tb.remote)).isSome = true →
    ((published_entries_of t l).filter (fun e => e.1 = current)).length = 1
  | [], _, hmem, _ => by simp at hmem
  | b :: rest, hnd, hmem, hpub => by
    obtain ⟨hnotin, hnd'⟩ := List.nodup_cons.mp hnd
    by_cases hb : b = current
    · subst hb
      rcases hy : (t.get b).bind (fun tb => tb.remote) with _ | y
      · rw [hy] at hpub; simp at hpub
      unfold published_entries_of
      rw [hy]
      simp only [Option.map]
      rw [List.filter_cons]
      simp only [decide_eq_true_eq, if_pos rfl]
      rw [published_entries_of_filter_not_mem t b rest hnotin]
      rfl
    · have hmem' : current ∈ rest := by
        rcases List.mem_cons.mp hmem with h | h
        · exact absurd h.symm hb
        · exact h
      have ih := published_entries_of_count t current rest hnd' hmem' hpub
      unfold published_entries_of
      rcases hy : (t.get b).bind (fun tb => tb.remote) with _ | y
      · exact ih
      · show (List.filter (fun e => decide (e.1 = current))
          ((b, y.pr_number) :: published_entries_of t rest)).length = 1
        rw [List.filter_cons]
        simp only [decide_eq_true_eq, if_neg hb]
        exact ih

/-- C7: when every non-trunk branch of the stack is tracked, the rendered
navigation comment is exactly the header, one line per published branch
from the leaf end down to but not including the trunk referencing its
pull-request number with the marker precisely on lines of the branch being
rendered for, a final line naming the trunk, and the footer; and when the
stack is duplicate-free and the branch rendered for is a published member,
exactly one line carries the marker. -/
theorem render_pr_comment_matches_spec (t : StackTree) (current : String)
    (stack : List String)
    (htracked : ∀ b ∈ stack.drop 1, (t.get b).isSome = true) :
    render_pr_comment t current stack =
      .ok (comment_header ++ lines_of_entries current (published_entries t stack) ++
           "* `" ++ t.trunk_name ++ "`\n" ++ comment_footer) ∧
    ((stack.drop 1).Nodup → current ∈ stack.drop 1 →
      ((t.get current).bind (fun tb => tb.remote)).isSome = true →
      ((published_entries t stack).filter (fun e => e.1 = current)).length = 1) := by
  constructor
  · unfold render_pr_comment published_entries
    rw [render_stack_lines_eq t current ((stack.drop 1).reverse)
      (fun b hb => htracked b (List.mem_reverse.mp hb))]
    simp [Except.map, String.append_assoc]
  · intro hnd hmem hpub
    exact published_entries_of_count t current ((stack.drop 1).reverse)
      (List.nodup_reverse.mpr hnd) (List.mem_reverse.mpr hmem) hpub

/-- Witness for C7 at the stack `main -> a -> b`, rendered for `a`. -/
theorem render_pr_comment_matches_spec_witness :
    render_pr_comment c7Tree "a" ["main", "a", "b"] =
      .ok (comment_header ++
           lines_of_entries "a" (published_entries c7Tree ["main", "a", "b"]) ++
           "* `" ++ c7Tree.trunk_name ++ "`\n" ++ comment_footer) ∧
    ((published_entries c7Tree ["main", "a", "b"]).filter (fun e => e.1 = "a")).length = 1 := by
  have h := render_pr_comment_matches_spec c7Tree "a" ["main", "a", "b"] (by decide)
  exact ⟨h.1, h.2 (by decide) (by decide) (by decide)⟩

/-- Lookup after an update of a different key is unchanged. -/
lemma lookupBr_set_ne (n : String) (b : TrackedBranch) :
    ∀ (l : List (String × TrackedBranch)) (m : String), m ≠ n →
    lookupBr (l.map (fun p => if p.1 = n then (n, b) else p)) m = lookupBr l m
  | [], _, _ => rfl
  | p :: rest, m, h => by
    by_cases hp : p.1 = n
    · have h1 : ¬(n = m) := fun hh => h hh.symm
      have h2 : ¬(p.1 = m) := by rw [hp]; exact h1
      simp only [List.map_cons, if_pos hp, lookupBr, if_neg h1, if_neg h2]
      exact lookupBr_set_ne n b rest m h
    · simp only [List.map_cons, if_neg hp, lookupBr]
      by_cases hm : p.1 = m
      · rw [if_pos hm, if_pos hm]
      · rw [if_neg hm, if_neg hm]
        exact lookupBr_set_ne n b rest m h

/-- Lookup after an update of the same key returns the new node when the
key was present. -/
lemma lookupBr_set_self (n : String) (b : TrackedBranch) :
    ∀ l : List (String × TrackedBranch),
    lookupBr (l.map (fun p => if p.1 = n then (n, b) else p)) n =
      (lookupBr l n).map (fun _ => b)
  | [] => rfl
  | p :: rest => by
    by_cases hp : p.1 = n
    · simp only [List.map_cons, if_pos hp]
      simp [lookupBr, hp]
    · simp only [List.map_cons, if_neg hp, lookupBr, if_neg hp]
      exact lookupBr_set_self n b rest

/-- Tree-level frame rule for `setBranch` at another name. -/
lemma StackTree.get_setBranch_ne (t : StackTree) (n : String) (b : TrackedBranch)
    (m : String) (h : m ≠ n) : (t.setBranch n b).get m = t.get m :=
  lookupBr_set_ne n b t.branches m h

/-- Tree-level rule for `setBranch` at the updated name. -/
lemma StackTree.get_setBranch_self (t : StackTree) (n : String) (b : TrackedBranch) :
    (t.setBranch n b).get n = (t.get n).map (fun _ => b) :=
  lookupBr_set_self n b t.branches

/-- Equation: the comment step skips a branch without remote metadata. -/
lemma update_branch_comment_skip (env : Env) (stack : List String) (branch : String)
    (st : CommentState) (tb : TrackedBranch) (h : st.tree.get branch = some tb)
    (hr : tb.remote = none) :
    update_branch_comment env stack branch st = (.ok (), st) := by
  unfold update_branch_comment
  rw [h]
  simp only [hr]

/-- Equation: the comment step updates the existing comment when an
identifier is recorded, leaving the tree untouched. -/
lemma update_branch_comment_update (env : Env) (stack : List String) (branch : String)
    (st : CommentState) (tb : TrackedBranch) (m : RemoteMetadata) (id : Nat) (body : String)
    (h : st.tree.get branch = some tb) (hr : tb.remote = some m)
    (hrender : render_pr_comment st.tree branch stack = .ok body)
    (hid : m.comment_id = some id) :
    update_branch_comment env stack branch st =
      (.ok (), { st with calls := st.calls ++ [Call.updateComment id body] }) := by
  unfold update_branch_comment
  rw [h]
  simp only [hr, hrender, hid]

/-- Equation: the comment step creates a comment and persists the fresh
identifier when none is recorded. -/
lemma update_branch_comment_create (env : Env) (stack : List String) (branch : String)
    (st : CommentState) (tb : TrackedBranch) (m : RemoteMetadata) (body : String)
    (h : st.tree.get branch = some tb) (hr : tb.remote = some m)
    (hrender : render_pr_comment st.tree branch stack = .ok body)
    (hid : m.comment_id = none) :
    update_branch_comment env stack branch st =
      (.ok (),
        { tree := st.tree.setBranch branch
            { tb with remote := some { m with comment_id := some (env.new_comment_ids st.cmtCtr) } },
          calls := st.calls ++ [Call.createComment m.pr_number body],
          cmtCtr := st.cmtCtr + 1 }) := by
  unfold update_branch_comment
  rw [h]
  simp only [hr, hrender, hid]

/-- Presence of an entry is preserved by `setBranch`. -/
lemma StackTree.get_setBranch_isSome (t : StackTree) (n : String) (b : TrackedBranch)
    (m : String) : ((t.setBranch n b).get m).isSome = (t.get m).isSome := by
  by_cases h : m = n
  · subst h
    rw [StackTree.get_setBranch_self]
    cases t.get m <;> rfl
  · rw [StackTree.get_setBranch_ne t n b m h]

/-- Shape of one comment step: calls are appended comment calls only,
entries of other branches are untouched, and presence of every entry is
preserved. -/
lemma update_branch_comment_shape (env : Env) (stack : List String) (branch : String)
    (st : CommentState) :
    (∃ seg, (update_branch_comment env stack branch st).2.calls = st.calls ++ seg ∧
      ∀ c ∈ seg, c.isCommentCall = true) ∧
    (∀ m, m ≠ branch → (update_branch_comment env stack branch st).2.tree.get m = st.tree.get m) ∧
    (∀ m, ((update_branch_comment env stack branch st).2.tree.get m).isSome =
      (st.tree.get m).isSome) := by
  unfold update_branch_comment
  rcases hget : st.tree.get branch with _ | tb
  · exact ⟨⟨[], by simp, by simp⟩, fun m _ => rfl, fun m => rfl⟩
  rcases hrem : tb.remote with _ | m
  · simp only [hrem]
    exact ⟨⟨[], by simp, by simp⟩, by simp, by simp⟩
  simp only [hrem]
  rcases hrender : render_pr_comment st.tree branch stack with e | body
  · simp only [hrender]
    exact ⟨⟨[], by simp, by simp⟩, by simp, by simp⟩
  simp only [hrender]
  rcases hid : m.comment_id with _ | id
  · simp only [hid]
    refine ⟨⟨[Call.createComment m.pr_number body], by simp, by simp [Call.isCommentCall]⟩,
      fun x hx => StackTree.get_setBranch_ne st.tree branch _ x hx,
      fun x => StackTree.get_setBranch_isSome st.tree branch _ x⟩
  · simp only [hid]
    exact ⟨⟨[Call.updateComment id body], by simp, by simp [Call.isCommentCall]⟩,
      by simp, by simp⟩

/-- Shape of the comment loop: appended calls are comment calls only,
entries of unlisted branches are untouched, presence is preserved. -/
lemma comment_loop_shape (env : Env) (stack : List String) :
    ∀ (l : List String) (st : CommentState),
    (∃ seg, (comment_loop env stack l st).2.calls = st.calls ++ seg ∧
      ∀ c ∈ seg, c.isCommentCall = true) ∧
    (∀ m, m ∉ l → (comment_loop env stack l st).2.tree.get m = st.tree.get m) ∧
    (∀ m, ((comment_loop env stack l st).2.tree.get m).isSome = (st.tree.get m).isSome)
  | [], st => ⟨⟨[], by simp [comment_loop], by simp⟩,
      fun m _ => rfl, fun m => rfl⟩
  | b :: rest, st => by
    obtain ⟨⟨seg₀, hc₀, hseg₀⟩, hfr₀, hsome₀⟩ :=
      update_branch_comment_shape env stack b st
    rcases hstep : update_branch_comment env stack b st with ⟨res, st₁⟩
    rw [hstep] at hc₀ hfr₀ hsome₀
    rcases res with e | u
    · refine ⟨⟨seg₀, ?_, hseg₀⟩, ?_, ?_⟩
      · simpa [comment_loop, hstep] using hc₀
      · intro m hm
        simp only [comment_loop, hstep]
        exact hfr₀ m (fun hh => hm (by simp [hh]))
      · intro m
        simp only [comment_loop, hstep]
        exact hsome₀ m
    · obtain ⟨⟨seg₁, hc₁, hseg₁⟩, hfr₁, hsome₁⟩ := comment_loop_shape env stack rest st₁
      refine ⟨⟨seg₀ ++ seg₁, ?_, ?_⟩, ?_, ?_⟩
      · simp only [comment_loop, hstep]
        rw [hc₁, hc₀, List.append_assoc]
      · intro c hc
        rcases List.mem_append.mp hc with h | h
        · exact hseg₀ c h
        · exact hseg₁ c h
      · intro m hm
        simp only [comment_loop, hstep]
        rw [hfr₁ m (fun hh => hm (by simp [hh])),
          hfr₀ m (fun hh => hm (by simp [hh]))]
      · intro m
        simp only [comment_loop, hstep]
        rw [hsome₁ m, hsome₀ m]

/-- The comment loop succeeds when every branch of the stack and of the
remaining worklist is tracked. -/
lemma comment_loop_ok (env : Env) (stack : List String) :
    ∀ (l : List String) (st : CommentState),
    (∀ b ∈ stack.drop 1, (st.tree.get b).isSome = true) →
    (∀ b ∈ l, (st.tree.get b).isSome = true) →
    (comment_loop env stack l st).1 = .ok ()
  | [], st, _, _ => rfl
  | b :: rest, st, hall, hl => by
    have hbsome : (st.tree.get b).isSome = true := hl b (by simp)
    rcases hget : st.tree.get b with _ | tb
    · rw [hget] at hbsome; simp at hbsome
    have hstep_ok : ∃ st₁, update_branch_comment env stack b st = (.ok (), st₁) := by
      rcases hrem : tb.remote with _ | m
      · exact ⟨st, update_branch_comment_skip env stack b st tb hget hrem⟩
      · have hrender : render_pr_comment st.tree b stack =
            .ok (comment_header ++
              lines_of_entries b (published_entries st.tree stack) ++
              "* `" ++ st.tree.trunk_name ++ "`\n" ++ comment_footer) := by
          unfold render_pr_comment published_entries
          rw [render_stack_lines_eq st.tree b ((stack.drop 1).reverse)
            (fun x hx => hall x (List.mem_reverse.mp hx))]
          simp [Except.map, String.append_assoc]
        rcases hid : m.comment_id with _ | id
        · exact ⟨_, update_branch_comment_create env stack b st tb m _ hget hrem hrender hid⟩
        · exact ⟨_, update_branch_comment_update env stack b st tb m id _ hget hrem hrender hid⟩
    obtain ⟨st₁, hstep⟩ := hstep_ok
    obtain ⟨_, _, hsome⟩ := update_branch_comment_shape env stack b st
    rw [hstep] at hsome
    simp only [comment_loop, hstep]
    exact comment_loop_ok env stack rest st₁
      (fun x hx => by rw [hsome x]; exact hall x hx)
      (fun x hx => by rw [hsome x]; exact hl x (by simp [hx]))

/-- Equation: the comment step propagates a rendering failure. -/
lemma update_branch_comment_render_error (env : Env) (stack : List String) (branch : String)
    (st : CommentState) (tb : TrackedBranch) (m : RemoteMetadata) (e : StError)
    (h : st.tree.get branch = some tb) (hr : tb.remote = some m)
    (hrender : render_pr_comment st.tree branch stack = .error e) :
    update_branch_comment env stack branch st = (.error e, st) := by
  unfold update_branch_comment
  rw [h]
  simp only [hr, hrender]

/-- Per-branch outcome of the comment loop on a duplicate-free worklist:
a branch without metadata keeps its entry, a branch with a recorded
comment identifier keeps its entry and has that comment updated, a branch
without one obtains a created comment whose identifier is persisted. -/
lemma comment_loop_processes (env : Env) (stack : List String) :
    ∀ (l : List String) (st : CommentState) (b : String) (tb : TrackedBranch),
    (comment_loop env stack l st).1 = .ok () → l.Nodup → b ∈ l →
    st.tree.get b = some tb →
    ((tb.remote = none → (comment_loop env stack l st).2.tree.get b = some tb) ∧
     (∀ m id, tb.remote = some m → m.comment_id = some id →
        (comment_loop env stack l st).2.tree.get b = some tb ∧
        ∃ body, Call.updateComment id body ∈ (comment_loop env stack l st).2.calls) ∧
     (∀ m, tb.remote = some m → m.comment_id = none →
        ∃ cid body,
          Call.createComment m.pr_number body ∈ (comment_loop env stack l st).2.calls ∧
          (comment_loop env stack l st).2.tree.get b =
            some { tb with remote := some { m with comment_id := some cid } }))
  | [], _, b, _, _, _, hb, _ => by simp at hb
  | c :: rest, st, b, tb, hok, hnd, hb, hget => by
    obtain ⟨hnotin, hnd'⟩ := List.nodup_cons.mp hnd
    rcases hstep : update_branch_comment env stack c st with ⟨res, st₁⟩
    rcases res with e | u
    · rw [show comment_loop env stack (c :: rest) st = (.error e, st₁) by
        simp only [comment_loop, hstep]] at hok
      simp at hok
    have hloop : comment_loop env stack (c :: rest) st = comment_loop env stack rest st₁ := by
      simp only [comment_loop, hstep]
    rw [hloop] at hok ⊢
    obtain ⟨⟨segR, hcR, _⟩, hfrR, _⟩ := comment_loop_shape env stack rest st₁
    by_cases hbc : b = c
    · subst hbc
      rcases hrem : tb.remote with _ | m
      · have heq := update_branch_comment_skip env stack b st tb hget hrem
        rw [hstep] at heq
        have hst₁ : st₁ = st := congrArg Prod.snd heq
        refine ⟨fun _ => ?_, fun m id hm _ => Option.noConfusion hm,
          fun m hm _ => Option.noConfusion hm⟩
        rw [hfrR b hnotin, hst₁]
        exact hget
      · rcases hrender : render_pr_comment st.tree b stack with e2 | body
        · have heq := update_branch_comment_render_error env stack b st tb m e2 hget hrem hrender
          rw [hstep] at heq
          exact absurd (congrArg Prod.fst heq) (by simp)
        rcases hid : m.comment_id with _ | id
        · have heq := update_branch_comment_create env stack b st tb m body hget hrem hrender hid
          rw [hstep] at heq
          have hst₁ : st₁ =
              { tree := st.tree.setBranch b
                  { tb with remote :=
                      (some { m with comment_id := some (env.new_comment_ids st.cmtCtr) }) },
                calls := st.calls ++ [Call.createComment m.pr_number body],
                cmtCtr := st.cmtCtr + 1 } := congrArg Prod.snd heq
          refine ⟨fun hh => Option.noConfusion hh,
            fun m' id' hm' hid' => ?_, fun m' hm' hid' => ?_⟩
          · injection hm' with hmm
            subst hmm
            rw [hid] at hid'
            exact Option.noConfusion hid'
          · injection hm' with hmm
            subst hmm
            refine ⟨env.new_comment_ids st.cmtCtr, body, ?_, ?_⟩
            · rw [hcR, hst₁]
              simp
            · rw [hfrR b hnotin, hst₁]
              show (st.tree.setBranch b _).get b = _
              rw [StackTree.get_setBranch_self, hget]
              rfl
        · have heq := update_branch_comment_update env stack b st tb m id body hget hrem hrender hid
          rw [hstep] at heq
          have hst₁ : st₁ = { st with calls := st.calls ++ [Call.updateComment id body] } :=
            congrArg Prod.snd heq
          refine ⟨fun hh => Option.noConfusion hh,
            fun m' id' hm' hid' => ?_, fun m' hm' hid' => ?_⟩
          · injection hm' with hmm
            subst hmm
            rw [hid] at hid'
            injection hid' with hii
            subst hii
            refine ⟨?_, body, ?_⟩
            · rw [hfrR b hnotin, hst₁]
              exact hget
            · rw [hcR, hst₁]
              simp
          · injection hm' with hmm
            subst hmm
            rw [hid] at hid'
            exact Option.noConfusion hid'
    · have hmem' : b ∈ rest := (List.mem_cons.mp hb).resolve_left hbc
      obtain ⟨-, hfr₀, -⟩ := update_branch_comment_shape env stack c st
      rw [hstep] at hfr₀
      have hget₁ : st₁.tree.get b = some tb := by
        rw [hfr₀ b hbc]
        exact hget
      exact comment_loop_processes env stack rest st₁ b tb hok hnd' hmem' hget₁

/-- C8: the comment pass succeeds whenever every non-trunk branch is
tracked, and processes every non-trunk branch of a duplicate-free stack:
branches without remote metadata are skipped with their entry unchanged,
a branch with a recorded comment identifier gets that comment updated and
its entry unchanged, and a branch without one gets a comment created with
the returned identifier persisted into its remote metadata. -/
theorem update_pr_comments_second_pass (env : Env) (tree : StackTree) (stack : List String) :
    ((∀ b ∈ stack.drop 1, (tree.get b).isSome = true) →
      (update_pr_comments env tree stack).1 = .ok ()) ∧
    ((update_pr_comments env tree stack).1 = .ok () → (stack.drop 1).Nodup →
      ∀ b tb, b ∈ stack.drop 1 → tree.get b = some tb →
      ((tb.remote = none → (update_pr_comments env tree stack).2.tree.get b = some tb) ∧
       (∀ m id, tb.remote = some m → m.comment_id = some id →
          (update_pr_comments env tree stack).2.tree.get b = some tb ∧
          ∃ body, Call.updateComment id body ∈ (update_pr_comments env tree stack).2.calls) ∧
       (∀ m, tb.remote = some m → m.comment_id = none →
          ∃ cid body,
            Call.createComment m.pr_number body ∈ (update_pr_comments env tree stack).2.calls ∧
            (update_pr_comments env tree stack).2.tree.get b =
              some { tb with remote := some { m with comment_id := some cid } }))) := by
  constructor
  · intro h
    exact comment_loop_ok env stack (stack.drop 1)
      { tree := tree, calls := [], cmtCtr := 0 } h h
  · intro hok hnd b tb hb hget
    exact comment_loop_processes env stack (stack.drop 1)
      { tree := tree, calls := [], cmtCtr := 0 } b tb hok hnd hb hget

/-- Witness for C8 at the stack `main -> a -> b`. -/
theorem update_pr_comments_second_pass_witness :
    (update_pr_comments baseEnv c8Tree ["main", "a", "b"]).1 = .ok () ∧
    (∃ body, Call.updateComment 42 body ∈
      (update_pr_comments baseEnv c8Tree ["main", "a", "b"]).2.calls) ∧
    (∃ cid body,
      Call.createComment 4 body ∈
        (update_pr_comments baseEnv c8Tree ["main", "a", "b"]).2.calls ∧
      (update_pr_comments baseEnv c8Tree ["main", "a", "b"]).2.tree.get "b" =
        some { parent := some "a", children := [],
               remote := some { pr_number := 4, remote_name := some "", comment_id := some cid } }) := by
  have h := update_pr_comments_second_pass baseEnv c8Tree ["main", "a", "b"]
  have h1 := h.1 (by decide)
  have hcha := h.2 h1 (by decide) "a"
    { parent := some "main", children := ["b"],
      remote := some { pr_number := 3, remote_name := some "", comment_id := some 42 } }
    (by decide) (by decide)
  have hchb := h.2 h1 (by decide) "b"
    { parent := some "a", children := [],
      remote := some { pr_number := 4, remote_name := some "", comment_id := none } }
    (by decide) (by decide)
  refine ⟨h1, ?_, ?_⟩
  · exact (hcha.2.1 { pr_number := 3, remote_name := some "", comment_id := some 42 } 42
      rfl rfl).2
  · exact hchb.2.2 { pr_number := 4, remote_name := some "", comment_id := none } rfl rfl

/-- C5: when the stack is discovered and the cleanliness check fails, the
submit command returns exactly that error, the tree is unchanged, and the
trace is empty: no push, no pull-request call and no closed-PR query has
been performed. -/
theorem run_cleanliness_gate (force : Bool) (env : Env) (tree : StackTree)
    (stack : List String) (e : StError)
    (hdisc : discover_stack tree env.current_branch = .ok stack)
    (hclean : check_cleanliness env stack = .error e) :
    SubmitCmd.run force env tree = (.error e, tree, []) := by
  unfold SubmitCmd.run pre_flight
  rw [hdisc]
  simp only [hclean]

/-- Witness for C5 on the concrete stack `main -> a` with a dirty working
tree. -/
theorem run_cleanliness_gate_witness :
    discover_stack c2Tree dirtyEnv.current_branch = .ok ["main", "a"] ∧
    check_cleanliness dirtyEnv ["main", "a"] = .error StError.WorkingTreeDirty ∧
    SubmitCmd.run false dirtyEnv c2Tree = (.error StError.WorkingTreeDirty, c2Tree, []) := by
  refine ⟨by decide, by decide, ?_⟩
  exact run_cleanliness_gate false dirtyEnv c2Tree ["main", "a"] StError.WorkingTreeDirty
    (by decide) (by decide)

/-- Calls emitted by one submission step are never comment calls. -/
lemma submit_branch_calls_noncomment (force : Bool) (env : Env) (assignee : String)
    (p b : String) (st : SubmitState) :
    ∀ c ∈ (submit_branch force env assignee p b st).2.calls,
      c ∈ st.calls ∨ c.isCommentCall = false := by
  unfold submit_branch
  rw [determine_target_pr_remote_eq]
  rcases hget : st.tree.get b with _ | tb
  · exact fun c hc => .inl hc
  rcases hrem : tb.remote with _ | m
  · simp only [hrem]
    intro c hc
    simp only [List.append_assoc, List.cons_append, List.nil_append, List.mem_append,
      List.mem_cons, List.not_mem_nil, or_false] at hc
    rcases hc with hc | hc | hc | hc
    · exact .inl hc
    · subst hc; exact .inr rfl
    · subst hc; exact .inr rfl
    · subst hc; exact .inr rfl
  · simp only [hrem]
    rcases hpr : env.prs m.pr_number with _ | pr
    · intro c hc
      simp only [List.mem_append, List.mem_cons, List.not_mem_nil, or_false] at hc
      rcases hc with hc | hc
      · exact .inl hc
      · subst hc; exact .inr rfl
    · by_cases hb : pr.base_ref ≠ p
      · simp only [if_pos hb]
        rcases htip : env.localTip b with _ | tip
        · intro c hc
          simp only [List.append_assoc, List.cons_append, List.nil_append, List.mem_append,
            List.mem_cons, List.not_mem_nil, or_false] at hc
          rcases hc with hc | hc | hc
          · exact .inl hc
          · subst hc; exact .inr rfl
          · subst hc; exact .inr rfl
        · by_cases hsha : pr.head_sha = tip
          · simp only [if_pos hsha]
            intro c hc
            simp only [List.append_assoc, List.cons_append, List.nil_append, List.mem_append,
              List.mem_cons, List.not_mem_nil, or_false] at hc
            rcases hc with hc | hc | hc
            · exact .inl hc
            · subst hc; exact .inr rfl
            · subst hc; exact .inr rfl
          · simp only [if_neg hsha]
            intro c hc
            simp only [List.append_assoc, List.cons_append, List.nil_append, List.mem_append,
              List.mem_cons, List.not_mem_nil, or_false] at hc
            rcases hc with hc | hc | hc | hc
            · exact .inl hc
            · subst hc; exact .inr rfl
            · subst hc; exact .inr rfl
            · subst hc; exact .inr rfl
      · simp only [if_neg hb]
        rcases htip : env.localTip b with _ | tip
        · intro c hc
          simp only [List.mem_append, List.mem_cons, List.not_mem_nil, or_false] at hc
          rcases hc with hc | hc
          · exact .inl hc
          · subst hc; exact .inr rfl
        · by_cases hsha : pr.head_sha = tip
          · simp only [if_pos hsha]
            intro c hc
            simp only [List.mem_append, List.mem_cons, List.not_mem_nil, or_false] at hc
            rcases hc with hc | hc
            · exact .inl hc
            · subst hc; exact .inr rfl
          · simp only [if_neg hsha]
            intro c hc
            simp only [List.append_assoc, List.cons_append, List.nil_append, List.mem_append,
              List.mem_cons, List.not_mem_nil, or_false] at hc
            rcases hc with hc | hc | hc
            · exact .inl hc
            · subst hc; exact .inr rfl
            · subst hc; exact .inr rfl

/-- Calls emitted by the submission loop are never comment calls. -/
lemma submit_loop_calls_noncomment (force : Bool) (env : Env) (assignee : String) :
    ∀ (pairs : List (String × String)) (st : SubmitState),
    ∀ c ∈ (submit_loop force env assignee pairs st).2.calls,
      c ∈ st.calls ∨ c.isCommentCall = false
  | [], st => fun c hc => .inl hc
  | pb :: rest, st => by
    intro c hc
    rcases hstep : submit_branch force env assignee pb.1 pb.2 st with ⟨res, st₁⟩
    have hstepmem := submit_branch_calls_noncomment force env assignee pb.1 pb.2 st
    rw [hstep] at hstepmem
    rcases res with e | u
    · rw [show submit_loop force env assignee (pb :: rest) st = (.error e, st₁) by
        simp only [submit_loop, hstep]] at hc
      exact hstepmem c hc
    · rw [show submit_loop force env assignee (pb :: rest) st =
          submit_loop force env assignee rest st₁ by
        simp only [submit_loop, hstep]] at hc
      rcases submit_loop_calls_noncomment force env assignee rest st₁ c hc with h | h
      · exact hstepmem c h
      · exact .inr h

/-- Calls of the whole submission phase are never comment calls. -/
lemma submit_stack_calls_noncomment (force : Bool) (env : Env) (tree : StackTree) :
    ∀ c ∈ (submit_stack force env tree).2.calls, c.isCommentCall = false := by
  unfold submit_stack
  rcases hdisc : discover_stack tree env.current_branch with e | stack
  · intro c hc
    simp at hc
  · intro c hc
    rcases submit_loop_calls_noncomment force env (effective_assignee env)
      (stack.zip (stack.drop 1)) { tree := tree, calls := [], prCtr := 0 } c hc with h | h
    · simp at h
    · exact h

/-- Calls of the closed-PR reconciliation loop are never comment calls. -/
lemma delete_closed_loop_calls_noncomment (env : Env) :
    ∀ (l : List String) (t : StackTree) (cs : List Call) (n : Nat),
    ∀ c ∈ (delete_closed_loop env l t cs n).2.2, c ∈ cs ∨ c.isCommentCall = false
  | [], _, _, _ => fun c hc => .inl hc
  | b :: rest, t, cs, n => by
    intro c hc
    unfold delete_closed_loop at hc
    rcases hx : (t.get b).bind (fun tb => tb.remote) with _ | m
    · rw [hx] at hc
      exact delete_closed_loop_calls_noncomment env rest t cs n c hc
    · rw [hx] at hc
      replace hc : c ∈ (match env.pr_state m.pr_number with
        | none => ((Except.error StError.RemoteApiFailure : Except StError Nat), t,
            cs ++ [Call.queryPRState m.pr_number])
        | some PrState.closedPr =>
          delete_closed_loop env rest (remove_branch t b)
            (cs ++ [Call.queryPRState m.pr_number]) (n + 1)
        | some _ =>
          delete_closed_loop env rest t (cs ++ [Call.queryPRState m.pr_number]) n).2.2 := hc
      rcases hq : env.pr_state m.pr_number with _ | ps
      · rw [hq] at hc
        simp only [List.mem_append, List.mem_cons, List.not_mem_nil, or_false] at hc
        rcases hc with hc | hc
        · exact .inl hc
        · subst hc; exact .inr rfl
      · rcases ps <;> rw [hq] at hc
        · rcases delete_closed_loop_calls_noncomment env rest t
              (cs ++ [Call.queryPRState m.pr_number]) n c hc with h | h
          · simp only [List.mem_append, List.mem_cons, List.not_mem_nil, or_false] at h
            rcases h with h | h
            · exact .inl h
            · subst h; exact .inr rfl
          · exact .inr h
        · rcases delete_closed_loop_calls_noncomment env rest (remove_branch t b)
              (cs ++ [Call.queryPRState m.pr_number]) (n + 1) c hc with h | h
          · simp only [List.mem_append, List.mem_cons, List.not_mem_nil, or_false] at h
            rcases h with h | h
            · exact .inl h
            · subst h; exact .inr rfl
          · exact .inr h
        · rcases delete_closed_loop_calls_noncomment env rest t
              (cs ++ [Call.queryPRState m.pr_number]) n c hc with h | h
          · simp only [List.mem_append, List.mem_cons, List.not_mem_nil, or_false] at h
            rcases h with h | h
            · exact .inl h
            · subst h; exact .inr rfl
          · exact .inr h

/-- Calls of the pre-flight phase are never comment calls. -/
lemma pre_flight_calls_noncomment (env : Env) (tree : StackTree) (stack : List String) :
    ∀ c ∈ (pre_flight env tree stack).2.2, c.isCommentCall = false := by
  unfold pre_flight
  rcases hclean : check_cleanliness env stack with e | u
  · intro c hc
    simp at hc
  · rcases hdel : delete_closed_branches env (stack.drop 1) tree with ⟨res, t, cs⟩
    have hmem := delete_closed_loop_calls_noncomment env (stack.drop 1) tree [] 0
    rw [show delete_closed_loop env (stack.drop 1) tree [] 0 = (res, t, cs) from hdel] at hmem
    intro c hc
    rcases res with e | k <;> simp only at hc
    · rcases hmem c hc with h | h
      · simp at h
      · exact h
    · rcases hmem c hc with h | h
      · simp at h
      · exact h

/-- Calls of the comment-synchronization phase are always comment calls. -/
lemma update_pr_comments_calls_comment (env : Env) (tree : StackTree) (stack : List String) :
    ∀ c ∈ (update_pr_comments env tree stack).2.calls, c.isCommentCall = true := by
  obtain ⟨⟨seg, hseg, hall⟩, -, -⟩ :=
    comment_loop_shape env stack (stack.drop 1) { tree := tree, calls := [], cmtCtr := 0 }
  intro c hc
  unfold update_pr_comments at hc
  rw [hseg] at hc
  exact hall c (by simpa using hc)

/-- C6: the trace of the submit command splits into a first part free of
comment calls (pre-flight, pushes, pull-request creations and updates)
followed by a second part consisting of comment calls only: no comment is
created or updated until the whole stack has finished its
push/create/update processing. -/
theorem run_comments_are_second_pass (force : Bool) (env : Env) (tree : StackTree) :
    ∃ pre post, (SubmitCmd.run force env tree).2.2 = pre ++ post ∧
      (∀ c ∈ pre, c.isCommentCall = false) ∧
      (∀ c ∈ post, c.isCommentCall = true) := by
  unfold SubmitCmd.run
  rcases hdisc : discover_stack tree env.current_branch with e | stack
  · exact ⟨[], [], by simp, by simp, by simp⟩
  rcases hpf : pre_flight env tree stack with ⟨res1, t₁, cs₁⟩
  have hpre := pre_flight_calls_noncomment env tree stack
  rw [hpf] at hpre
  rcases res1 with e | u
  · exact ⟨cs₁, [], by simp [hpf], hpre, by simp⟩
  rcases hss : submit_stack force env t₁ with ⟨res2, st⟩
  have hsub := submit_stack_calls_noncomment force env t₁
  rw [hss] at hsub
  rcases res2 with e | u2
  · refine ⟨cs₁ ++ st.calls, [], by simp [hpf, hss], ?_, by simp⟩
    intro c hc
    rcases List.mem_append.mp hc with h | h
    · exact hpre c h
    · exact hsub c h
  rcases hupc : update_pr_comments env st.tree stack with ⟨res3, cst⟩
  have hcmt := update_pr_comments_calls_comment env st.tree stack
  rw [hupc] at hcmt
  rcases res3 with e | u3
  · refine ⟨cs₁ ++ st.calls, cst.calls, by simp [hpf, hss, hupc, List.append_assoc], ?_, hcmt⟩
    intro c hc
    rcases List.mem_append.mp hc with h | h
    · exact hpre c h
    · exact hsub c h
  · refine ⟨cs₁ ++ st.calls, cst.calls, by simp [hpf, hss, hupc, List.append_assoc], ?_, hcmt⟩
    intro c hc
    rcases List.mem_append.mp hc with h | h
    · exact hpre c h
    · exact hsub c h

/-- The submission step never modifies the tree entry of an
already-submitted branch. -/
lemma submit_branch_tree_submitted (force : Bool) (env : Env) (assignee p b : String)
    (st : SubmitState) (tb : TrackedBranch) (m : RemoteMetadata)
    (hget : st.tree.get b = some tb) (hrem : tb.remote = some m) :
    (submit_branch force env assignee p b st).2.tree = st.tree := by
  unfold submit_branch
  rw [determine_target_pr_remote_eq, hget]
  simp only [hrem]
  rcases env.prs m.pr_number with _ | pr
  · rfl
  · rcases env.localTip b with _ | tip <;> (repeat' split) <;> rfl

/-- Every tree entry after one submission step is either unchanged, or a
previously unpublished entry now holding fresh remote metadata (with an
absent comment identifier by construction of `RemoteMetadata.new`). -/
lemma submit_branch_entry (force : Bool) (env : Env) (assignee p b : String)
    (st : SubmitState) (name : String) :
    (submit_branch force env assignee p b st).2.tree.get name = st.tree.get name ∨
    (∃ tb n trn, st.tree.get name = some tb ∧ tb.remote = none ∧
      (submit_branch force env assignee p b st).2.tree.get name =
        some { tb with remote := some (RemoteMetadata.new n (some trn)) }) := by
  rcases hget : st.tree.get b with _ | tb
  · left
    unfold submit_branch
    rw [determine_target_pr_remote_eq, hget]
  rcases hrem : tb.remote with _ | m
  · have htree : (submit_branch force env assignee p b st).2.tree =
        st.tree.setBranch b
          { tb with remote := some (RemoteMetadata.new (env.new_pr_numbers st.prCtr)
              (some (match first_child_pr_remote st.tree b with
                     | some (some rn) => rn
                     | _ => st.tree.remote_name))) } := by
      unfold submit_branch
      rw [determine_target_pr_remote_eq, hget]
      simp only [hrem]
    by_cases hname : name = b
    · subst hname
      right
      refine ⟨tb, env.new_pr_numbers st.prCtr,
        (match first_child_pr_remote st.tree name with
         | some (some rn) => rn
         | _ => st.tree.remote_name), hget, hrem, ?_⟩
      rw [htree, StackTree.get_setBranch_self, hget]
      rfl
    · left
      rw [htree]
      exact StackTree.get_setBranch_ne st.tree b _ name hname
  · left
    rw [submit_branch_tree_submitted force env assignee p b st tb m hget hrem]

/-- Entry evolution over the whole submission loop. -/
lemma submit_loop_entry (force : Bool) (env : Env) (assignee : String) :
    ∀ (pairs : List (String × String)) (st : SubmitState) (name : String),
    (submit_loop force env assignee pairs st).2.tree.get name = st.tree.get name ∨
    (∃ tb n trn, st.tree.get name = some tb ∧ tb.remote = none ∧
      (submit_loop force env assignee pairs st).2.tree.get name =
        some { tb with remote := some (RemoteMetadata.new n (some trn)) })
  | [], st, name => .inl rfl
  | pb :: rest, st, name => by
    rcases hstep : submit_branch force env assignee pb.1 pb.2 st with ⟨res, st₁⟩
    have hse := submit_branch_entry force env assignee pb.1 pb.2 st name
    rw [hstep] at hse
    rcases res with e | u
    · rw [show submit_loop force env assignee (pb :: rest) st = (.error e, st₁) by
        simp only [submit_loop, hstep]]
      exact hse
    · have hrest := submit_loop_entry force env assignee rest st₁ name
      rw [show submit_loop force env assignee (pb :: rest) st =
          submit_loop force env assignee rest st₁ by
        simp only [submit_loop, hstep]]
      rcases hse with hL | ⟨tb, n, trn, hget, hrem, hset⟩
      · rcases hrest with hL2 | ⟨tb2, n2, trn2, hget2, hrem2, hset2⟩
        · left
          rw [hL2, hL]
        · right
          exact ⟨tb2, n2, trn2, hL ▸ hget2, hrem2, hset2⟩
      · rcases hrest with hL2 | ⟨tb2, n2, trn2, hget2, hrem2, hset2⟩
        · right
          refine ⟨tb, n, trn, hget, hrem, ?_⟩
          rw [hL2]
          exact hset
        · rw [hset] at hget2
          injection hget2 with h2
          rw [← h2] at hrem2
          simp at hrem2

/-- Entry evolution over the whole submission phase. -/
lemma submit_stack_entry (force : Bool) (env : Env) (tree : StackTree) (name : String) :
    (submit_stack force env tree).2.tree.get name = tree.get name ∨
    (∃ tb n trn, tree.get name = some tb ∧ tb.remote = none ∧
      (submit_stack force env tree).2.tree.get name =
        some { tb with remote := some (RemoteMetadata.new n (some trn)) }) := by
  unfold submit_stack
  rcases hdisc : discover_stack tree env.current_branch with e | stack
  · left
    rfl
  · exact submit_loop_entry force env (effective_assignee env) (stack.zip (stack.drop 1))
      { tree := tree, calls := [], prCtr := 0 } name

/-- Every tree entry after one comment step is either unchanged, or an
entry with present remote metadata in which only the comment identifier
was written. -/
lemma update_branch_comment_entry (env : Env) (stack : List String) (branch : String)
    (st : CommentState) (name : String) :
    (update_branch_comment env stack branch st).2.tree.get name = st.tree.get name ∨
    (∃ tb m cid, st.tree.get name = some tb ∧ tb.remote = some m ∧
      (update_branch_comment env stack branch st).2.tree.get name =
        some { tb with remote := some { m with comment_id := some cid } }) := by
  unfold update_branch_comment
  rcases hget : st.tree.get branch with _ | tb
  · exact .inl rfl
  rcases hrem : tb.remote with _ | m
  · simp only [hrem]
    exact .inl trivial
  rcases hrender : render_pr_comment st.tree branch stack with e | body
  · simp only [hrem, hrender]
    exact .inl trivial
  rcases hid : m.comment_id with _ | id
  · by_cases hname : name = branch
    · subst hname
      right
      refine ⟨tb, m, env.new_comment_ids st.cmtCtr, hget, hrem, ?_⟩
      simp only [hrem, hrender, hid]
      rw [StackTree.get_setBranch_self, hget]
      rfl
    · left
      simp only [hrem, hrender, hid]
      exact StackTree.get_setBranch_ne st.tree branch _ name hname
  · simp only [hrem, hrender, hid]
    exact .inl trivial

/-- Entry evolution over the whole comment loop. -/
lemma comment_loop_entry (env : Env) (stack : List String) :
    ∀ (l : List String) (st : CommentState) (name : String),
    (comment_loop env stack l st).2.tree.get name = st.tree.get name ∨
    (∃ tb m cid, st.tree.get name = some tb ∧ tb.remote = some m ∧
      (comment_loop env stack l st).2.tree.get name =
        some { tb with remote := some { m with comment_id := some cid } })
  | [], st, name => .inl rfl
  | b :: rest, st, name => by
    rcases hstep : update_branch_comment env stack b st with ⟨res, st₁⟩
    have hse := update_branch_comment_entry env stack b st name
    rw [hstep] at hse
    rcases res with e | u
    · rw [show comment_loop env stack (b :: rest) st = (.error e, st₁) by
        simp only [comment_loop, hstep]]
      exact hse
    · have hrest := comment_loop_entry env stack rest st₁ name
      rw [show comment_loop env stack (b :: rest) st = comment_loop env stack rest st₁ by
        simp only [comment_loop, hstep]]
      rcases hse with hL | ⟨tb, m, cid, hget, hrem, hset⟩
      · rcases hrest with hL2 | ⟨tb2, m2, cid2, hget2, hrem2, hset2⟩
        · left
          rw [hL2, hL]
        · right
          exact ⟨tb2, m2, cid2, hL ▸ hget2, hrem2, hset2⟩
      · rcases hrest with hL2 | ⟨tb2, m2, cid2, hget2, hrem2, hset2⟩
        · right
          refine ⟨tb, m, cid, hget, hrem, ?_⟩
          rw [hL2]
          exact hset
        · right
          rw [hset] at hget2
          injection hget2 with h2
          subst h2
          replace hrem2 : some { m with comment_id := some cid } = some m2 := hrem2
          injection hrem2 with h3
          subst h3
          refine ⟨tb, m, cid2, hget, hrem, ?_⟩
          rw [hset2]

/-- C9: the workflow only writes `comment_id` inside already-present
remote metadata, and metadata stored fresh has an absent `comment_id`.
Concretely: the submission phase never touches an entry whose metadata is
already present; any entry holding metadata with a present `comment_id`
after the submission phase existed unchanged beforehand (fresh metadata
carries an absent identifier); and the comment phase changes an entry only
by writing `comment_id` into its already-present metadata. -/
theorem comment_id_only_in_present_metadata :
    (∀ (force : Bool) (env : Env) (tree : StackTree) (b : String) (tb : TrackedBranch),
      tree.get b = some tb → tb.remote.isSome = true →
      (submit_stack force env tree).2.tree.get b = some tb) ∧
    (∀ (force : Bool) (env : Env) (tree : StackTree) (b : String) (tb' : TrackedBranch)
      (m' : RemoteMetadata),
      (submit_stack force env tree).2.tree.get b = some tb' → tb'.remote = some m' →
      m'.comment_id ≠ none → tree.get b = some tb') ∧
    (∀ (env : Env) (tree : StackTree) (stack : List String) (b : String)
      (tb' : TrackedBranch),
      (update_pr_comments env tree stack).2.tree.get b = some tb' →
      tree.get b = some tb' ∨
      ∃ tb m cid, tree.get b = some tb ∧ tb.remote = some m ∧
        tb' = { tb with remote := some { m with comment_id := some cid } }) := by
  refine ⟨?_, ?_, ?_⟩
  · intro force env tree b tb hget hsome
    rcases submit_stack_entry force env tree b with hL | ⟨tb0, n, trn, hget0, hrem0, _⟩
    · rw [hL]
      exact hget
    · rw [hget] at hget0
      injection hget0 with h0
      rw [← h0] at hrem0
      rw [hrem0] at hsome
      simp at hsome
  · intro force env tree b tb' m' hfin hrem' hcid
    rcases submit_stack_entry force env tree b with hL | ⟨tb0, n, trn, hget0, hrem0, hset0⟩
    · rw [← hL]
      exact hfin
    · rw [hfin] at hset0
      injection hset0 with h0
      rw [h0] at hrem'
      replace hrem' : some (RemoteMetadata.new n (some trn)) = some m' := hrem'
      injection hrem' with h1
      rw [← h1] at hcid
      exact absurd rfl hcid
  · intro env tree stack b tb' hfin
    rcases comment_loop_entry env stack (stack.drop 1)
        { tree := tree, calls := [], cmtCtr := 0 } b with hL | ⟨tb, m, cid, hget, hrem, hset⟩
    · left
      rw [← hL]
      exact hfin
    · right
      replace hset : (update_pr_comments env tree stack).2.tree.get b =
          some { tb with remote := some { m with comment_id := some cid } } := hset
      rw [hfin] at hset
      injection hset with h0
      exact ⟨tb, m, cid, hget, hrem, h0⟩

/-- Witness for C9: in the synced stack `main -> a` the published entry of
`a` survives submission unchanged, and in the comment pass over
`main -> a -> b` the final entry of `b` is its old entry with only the
comment identifier written. -/
theorem comment_id_only_in_present_metadata_witness :
    ((submit_stack false c2Env c2Tree).2.tree.get "a" =
      some { parent := some "main", children := [],
             remote := some { pr_number := 1, remote_name := some "", comment_id := none } }) ∧
    (c8Tree.get "b" =
        some { parent := some "a", children := [],
               remote := some { pr_number := 4, remote_name := some "", comment_id := some 500 } } ∨
      ∃ tb m cid, c8Tree.get "b" = some tb ∧ tb.remote = some m ∧
        ({ parent := some "a", children := [],
           remote := some { pr_number := 4, remote_name := some "",
                            comment_id := some 500 } } : TrackedBranch) =
          { tb with remote := some { m with comment_id := some cid } }) := by
  constructor
  · exact comment_id_only_in_present_metadata.1 false c2Env c2Tree "a"
      { parent := some "main", children := [],
        remote := some { pr_number := 1, remote_name := some "", comment_id := none } }
      (by decide) rfl
  · exact comment_id_only_in_present_metadata.2.2 baseEnv c8Tree ["main", "a", "b"] "b"
      { parent := some "a", children := [],
        remote := some { pr_number := 4, remote_name := some "", comment_id := some 500 } }
      (by decide)

/-- Lookup in a reset tree clears the remote metadata of an entry. -/
lemma lookupBr_reset :
    ∀ (l : List (String × TrackedBranch)) (n : String),
    lookupBr (l.map (fun p => (p.1, { p.2 with remote := none }))) n =
      (lookupBr l n).map (fun tb => { tb with remote := none })
  | [], _ => rfl
  | p :: rest, n => by
    by_cases hp : p.1 = n
    · simp [lookupBr, hp]
    · simp only [List.map_cons, lookupBr, if_neg hp]
      exact lookupBr_reset rest n

/-- C10: setting the remote name to the value the tree already holds
succeeds and leaves tree and configuration entirely unchanged without
resetting the tracked branches, while setting a different name succeeds,
stores the new name, and resets every tracked branch (clearing its remote
metadata) as a side effect. -/
theorem set_remote_same_noop_different_resets (prompted : String) (tree : StackTree)
    (cfg : StConfig) (n : String) :
    (n = tree.remote_name →
      SetCmd.run prompted (SetCommands.Remote (some n)) tree cfg =
        (.ok (), tree, cfg, false)) ∧
    (n ≠ tree.remote_name →
      SetCmd.run prompted (SetCommands.Remote (some n)) tree cfg =
        (.ok (), reset_tracked_branches { tree with remote_name := n }, cfg, true) ∧
      (reset_tracked_branches { tree with remote_name := n }).remote_name = n ∧
      ∀ b tb, (reset_tracked_branches { tree with remote_name := n }).get b = some tb →
        tb.remote = none) := by
  constructor
  · intro h
    simp only [SetCmd.run]
    rw [if_pos h]
  · intro h
    refine ⟨?_, rfl, ?_⟩
    · simp only [SetCmd.run]
      rw [if_neg h]
    · intro b tb hget
      unfold reset_tracked_branches StackTree.get at hget
      rw [lookupBr_reset] at hget
      rcases hx : lookupBr { tree with remote_name := n }.branches b with _ | tb0
      · rw [hx] at hget
        simp at hget
      · rw [hx] at hget
        simp only [Option.map] at hget
        injection hget with h0
        rw [← h0]

/-- Witness for C10 at the concrete tree `c2Tree` (default remote
`origin`): setting `origin` again is a no-op without reset, setting
`upstream` stores the new name, reports a reset, and clears the remote
metadata of the tracked branch `a`. -/
theorem set_remote_same_noop_different_resets_witness :
    (SetCmd.run "p" (SetCommands.Remote (some "origin")) c2Tree { default_assignee := none } =
      (.ok (), c2Tree, { default_assignee := none }, false)) ∧
    (SetCmd.run "p" (SetCommands.Remote (some "upstream")) c2Tree { default_assignee := none } =
      (.ok (), reset_tracked_branches { c2Tree with remote_name := "upstream" },
        { default_assignee := none }, true)) ∧
    (reset_tracked_branches { c2Tree with remote_name := "upstream" }).remote_name =
      "upstream" ∧
    ∀ b tb, (reset_tracked_branches { c2Tree with remote_name := "upstream" }).get b =
      some tb → tb.remote = none := by
  have h1 := (set_remote_same_noop_different_resets "p" c2Tree
    { default_assignee := none } "origin").1 (by decide)
  have h2 := (set_remote_same_noop_different_resets "p" c2Tree
    { default_assignee := none } "upstream").2 (by decide)
  exact ⟨h1, h2.1, h2.2.1, h2.2.2⟩
